import Mathlib

/-!
Shallow embedding of the TakeoffAI four-phase detection pipeline
(backend/app/pipeline: grid.py, synthesize.py, agent.py, models.py, config.py;
takeoffai/backend/app/pipeline: vlm.py, rasterize.py, context.py).

Conventions of the embedding:
- Python `str` is Lean `String`; the Python string methods used by the code
  (`upper`, `lower`, `strip`, substring `in`) are re-implemented below on the
  character list so that concrete instances reduce in the kernel.
- Python `int` is `Int` (pixel coordinates can in principle be negative),
  Python `float` percentages are `ℚ`, and `int(x)` truncation toward zero
  is `pyInt`.
- The remote VLM and the orchestrating model are oracles: their responses
  are universally quantified inputs (lists of raw detections, lists of
  agent turns, or an `Except` outcome for transport errors).
-/

/-- Python `s.upper()` restricted to the characters the pipeline handles. -/
def pyUpper (s : String) : String := ⟨s.data.map Char.toUpper⟩

/-- Python `s.lower()`. -/
def pyLower (s : String) : String := ⟨s.data.map Char.toLower⟩

/-- Python `s.strip()`: drop leading and trailing whitespace. -/
def pyStrip (s : String) : String :=
  ⟨((s.data.dropWhile Char.isWhitespace).reverse.dropWhile Char.isWhitespace).reverse⟩

/-- Python substring test `needle in hay`. -/
def pyContains (hay needle : String) : Bool := decide (needle.data <:+: hay.data)

/-- Python `int(q)` for a rational: truncation toward zero. -/
def pyInt (q : ℚ) : Int := if 0 ≤ q then ⌊q⌋ else ⌈q⌉

/-- Configuration (config.py `PipelineConfig`); only the fields the four
phases read are modelled. The source field `label_prefix` is called
`label_pfx` here; `label_pattern` (default `LT\d` repeated 2 to 3 times then
an optional capital letter) is modelled by `matchesLabelPattern` below.
`dedup_radius_px` defaults to 50 as in the source. -/
structure PipelineConfig where
  coarse_grid_cols : Nat := 4
  coarse_grid_rows : Nat := 3
  max_concurrent : Nat := 4
  max_agent_iterations : Nat := 20
  max_vlm_calls_phase3 : Nat := 15
  max_vlm_calls_total : Nat := 40
  dedup_radius_px : Int := 50
  label_pfx : String := "LT"
deriving DecidableEq

/-- One detected fixture instance (models.py `Detection`). -/
structure Detection where
  label : String
  variant : Option String := none
  circuit : Option String := none
  room : Option String := none
  x : Int := 0
  y : Int := 0
  confidence : String := "MEDIUM"
  on_boundary : Bool := false
  source_cell : Option (Nat × Nat) := none
  source_phase : Nat := 2
  notes : String := ""
deriving DecidableEq

/-- One suite entry of the drawing context (a dict with keys `number`,
`location`, `type` in the source; a missing or null value is `none`). -/
structure Suite where
  number : Option String := none
  location : Option String := none
  typ : Option String := none
deriving DecidableEq

/-- Page-level metadata from Phase 1 (models.py `DrawingContext`); the
`stairs`, `elevators` and `title_block` dicts are not read by any modelled
operation and are kept as opaque association lists. -/
structure DrawingContext where
  sheet_number : Option String := none
  sheet_title : Option String := none
  building_type : Option String := none
  floor_level : Option Int := none
  suites : List Suite := []
  corridor_layout : Option String := none
  stairs : List (List (String × String)) := []
  elevators : List (List (String × String)) := []
  title_block : List (String × String) := []
  fixture_types_visible : List String := []
deriving DecidableEq

/-- Per-phase outcome (models.py `PhaseResult`); `duration_s` (wall-clock
float) and the free-form `metadata` dict are omitted. -/
structure PhaseResult where
  phase : Nat
  detections : List Detection := []
  vlm_calls : Nat := 0
  error : Option String := none
deriving DecidableEq

/-- Final per-page output of Phase 4 (models.py `SynthesisReport`).
`final_counts` is a Python dict built with lexically sorted keys; it is
modelled as the association list in that insertion order. -/
structure SynthesisReport where
  final_counts : List (String × Nat) := []
  total : Nat := 0
  detections : List Detection := []
  duplicates_removed : Nat := 0
  pattern_warnings : List String := []
deriving DecidableEq

/-! ## GridDecomposer (grid.py) -/

/-- Pixel bounds of one grid cell (models.py `CellInfo`; the saved image
path is omitted). -/
structure CellInfo where
  row : Nat
  col : Nat
  x0 : Nat
  y0 : Nat
  x1 : Nat
  y1 : Nat
deriving DecidableEq

/-- Grid decomposition output (models.py `GridResult`). -/
structure GridResult where
  cells : List CellInfo
  plan_width : Nat
  plan_height : Nat
  cell_width : Nat
  cell_height : Nat
  cols : Nat
  rows : Nat
deriving DecidableEq

/-- One cell of `decompose`: `x0 = c*cw`, `y0 = r*ch`,
`x1 = min (x0+cw) W`, `y1 = min (y0+ch) H` exactly as in grid.py. -/
def mkCell (W H cw ch : Nat) (r c : Nat) : CellInfo :=
  { row := r, col := c,
    x0 := c * cw, y0 := r * ch,
    x1 := min (c * cw + cw) W, y1 := min (r * ch + ch) H }

/-- grid.py `decompose`: slice a `W`-by-`H` image into a `cols`-by-`rows`
grid with `cw = W // cols`, `ch = H // rows`. -/
def decompose (W H : Nat) (cfg : PipelineConfig) : GridResult :=
  let cols := cfg.coarse_grid_cols
  let rows := cfg.coarse_grid_rows
  let cw := W / cols
  let ch := H / rows
  { cells := (List.range rows).flatMap
      (fun r => (List.range cols).map (fun c => mkCell W H cw ch r c)),
    plan_width := W, plan_height := H,
    cell_width := cw, cell_height := ch,
    cols := cols, rows := rows }

/-- Membership of a pixel in the half-open rectangle of a cell. -/
def cellContains (cell : CellInfo) (px py : Nat) : Prop :=
  cell.x0 ≤ px ∧ px < cell.x1 ∧ cell.y0 ≤ py ∧ py < cell.y1

instance (cell : CellInfo) (px py : Nat) : Decidable (cellContains cell px py) :=
  inferInstanceAs (Decidable (_ ∧ _ ∧ _ ∧ _))

/-! ## Synthesizer (synthesize.py) -/

/-- synthesize.py `CONF_RANK` lookup with default 0
(`CONF_RANK.get(confidence, 0)`). -/
def confRank (c : String) : Nat :=
  if c = "HIGH" then 3 else if c = "MEDIUM" then 2 else if c = "LOW" then 1 else 0

/-- Descending order on the Python sort key
`(CONF_RANK.get(confidence, 0), source_phase)` used with `reverse=True`.
`detGe d e` holds when `d` sorts no later than `e`. -/
def detGe (d e : Detection) : Prop :=
  confRank e.confidence < confRank d.confidence ∨
    (confRank e.confidence = confRank d.confidence ∧ e.source_phase ≤ d.source_phase)

instance : DecidableRel detGe := fun d e =>
  inferInstanceAs (Decidable (confRank e.confidence < confRank d.confidence ∨
    (confRank e.confidence = confRank d.confidence ∧ e.source_phase ≤ d.source_phase)))

instance : IsTotal Detection detGe :=
  ⟨fun d e => by unfold detGe; omega⟩

instance : IsTrans Detection detGe :=
  ⟨fun a b c hab hbc => by unfold detGe at *; omega⟩

/-- Python `sorted(detections, key=..., reverse=True)`: a stable sort in
descending key order, modelled by insertion sort with the non-strict
relation `detGe` (insertion sort with a total non-strict relation is
stable, like CPython sort). -/
def sortedDets (dets : List Detection) : List Detection :=
  List.insertionSort detGe dets

/-- Inner test of the dedup walk: `existing.label == det.label and
abs(existing.x - det.x) < radius and abs(existing.y - det.y) < radius`. -/
def isDupOf (radius : Int) (det existing : Detection) : Bool :=
  existing.label == det.label
    && decide (|existing.x - det.x| < radius)
    && decide (|existing.y - det.y| < radius)

/-- One step of the dedup walk over the sorted sequence: drop and count a
duplicate, otherwise append to the kept list. -/
def dedupStep (radius : Int) : List Detection × Nat → Detection → List Detection × Nat
  | (kept, dups), det =>
    if kept.any (fun e => isDupOf radius det e) then (kept, dups + 1)
    else (kept ++ [det], dups)

/-- The dedup walk of synthesize.py: fold `dedupStep` over the sorted
detections, returning the kept list and the duplicate count. -/
def dedupWalk (radius : Int) (dets : List Detection) : List Detection × Nat :=
  dets.foldl (dedupStep radius) ([], 0)

/-- Python `Counter(labels)[lab]`: multiplicity of a label. -/
def labelCount (labels : List String) (lab : String) : Nat := labels.count lab

/-- Lexical sort of strings, `sorted(...)` in Python. -/
def sortStr (l : List String) : List String :=
  List.insertionSort (α := String) (· ≤ ·) l

/-- Python `dict(sorted(Counter(d.label for d in kept).items()))`:
the per-label tallies keyed in lexical order. -/
def finalCountsOf (kept : List Detection) : List (String × Nat) :=
  let labels := kept.map (fun d => d.label)
  (sortStr labels.dedup).map (fun lab => (lab, labelCount labels lab))

/-- Python `{s.get("number") for s in context.suites if s.get("number")}`:
the set of non-empty suite numbers, as a deduplicated list. -/
def suiteNumbers (ctx : DrawingContext) : List String :=
  ((ctx.suites.filterMap (fun s => s.number)).filter (fun n => n ≠ "")).dedup

/-- Whether some kept detection has a room text containing the suite
number (both lowercased), as in `_check_suite_coverage`. -/
def suiteDetected (kept : List Detection) (sn : String) : Bool :=
  kept.any (fun d => pyContains (pyLower (d.room.getD "")) (pyLower sn))

/-- Suites with no matching-room detection (`missing = suite_numbers -
detected_suites`). -/
def missingSuites (kept : List Detection) (ctx : DrawingContext) : List String :=
  (suiteNumbers ctx).filter (fun sn => ! suiteDetected kept sn)

/-- The single warning string emitted by `_check_suite_coverage`. -/
def suiteWarning (pfx : String) (missing : List String) : String :=
  "No " ++ pfx ++ " fixtures detected in suites: "
    ++ String.intercalate ", " (sortStr missing)
    ++ ". This may indicate missed detections."

/-- synthesize.py `_check_suite_coverage`: one combined warning naming all
missing suites, or no warning at all. -/
def checkSuiteCoverage (kept : List Detection) (ctx : DrawingContext)
    (cfg : PipelineConfig) : List String :=
  let missing := missingSuites kept ctx
  if missing.isEmpty then [] else [suiteWarning cfg.label_pfx missing]

/-- synthesize.py `synthesize`: confidence-ranked spatial deduplication and
final report. An empty input returns the default report immediately. -/
def synthesize (detections : List Detection) (cfg : PipelineConfig)
    (context : Option DrawingContext) : SynthesisReport :=
  if detections.isEmpty then {} else
  let radius := cfg.dedup_radius_px
  let sorted_dets := sortedDets detections
  let kd := dedupWalk radius sorted_dets
  let kept := kd.1
  let warnings :=
    match context with
    | some c => if c.suites.isEmpty then [] else checkSuiteCoverage kept c cfg
    | none => []
  { final_counts := finalCountsOf kept,
    total := kept.length,
    detections := kept,
    duplicates_removed := kd.2,
    pattern_warnings := warnings }

/-! ## Label filtering and coordinate conversion (vlm.py, agent.py) -/

/-- Python `label.upper().strip()` applied to a raw label before the regex
check. -/
def normalizeLabel (s : String) : String := pyStrip (pyUpper s)

/-- Existence of a `re.match` of the default configured pattern
(`LT`, two or three digits, an optional capital letter) at the start of the
string: since the digit count and the trailing letter are optional beyond
two digits, a match exists exactly when the string starts with `LT`
followed by two digits. -/
def matchesLabelPattern (s : String) : Bool :=
  match s.data with
  | 'L' :: 'T' :: c1 :: c2 :: _ => c1.isDigit && c2.isDigit
  | _ => false

/-- Python `label[len(prefix):].lstrip("0123456789") or None`. -/
def variantOf (pfx label : String) : Option String :=
  let rest := (label.data.drop pfx.length).dropWhile (fun c => c.isDigit)
  if rest.isEmpty then none else some ⟨rest⟩

/-- Value of the raw `position` field: a dict with optional percentage
entries, or a non-dict value (which triggers the midpoint fallback). -/
inductive PosValue where
  | dict (xPct? yPct? : Option ℚ)
  | other
deriving DecidableEq

/-- One raw detection dict parsed from a model response; a missing key is
`none` (Python `d.get`), and `position` defaults to the empty dict. -/
structure RawDetection where
  label : String := ""
  circuit : Option String := none
  room : Option String := none
  position : PosValue := .dict none none
  confidence : Option String := none
  on_boundary : Option Bool := none
  notes : Option String := none
deriving DecidableEq

/-- Conversion of one raw detection in vlm.py `inspect_cell`: normalize the
label, reject it unless the pattern matches, interpolate the fractional
position against the cell pixel bounds (midpoint when `position` is not a
dict), and tag with phase 2 and the source cell. -/
def convertCellRaw (cfg : PipelineConfig) (cell : CellInfo)
    (d : RawDetection) : Option Detection :=
  let label := normalizeLabel d.label
  if matchesLabelPattern label then
    let pq : ℚ × ℚ :=
      match d.position with
      | .dict xPct? yPct? =>
          ((cell.x0 : ℚ) + (xPct?.getD 50) / 100 * ((cell.x1 : ℚ) - (cell.x0 : ℚ)),
           (cell.y0 : ℚ) + (yPct?.getD 50) / 100 * ((cell.y1 : ℚ) - (cell.y0 : ℚ)))
      | .other =>
          (((cell.x0 : ℚ) + (cell.x1 : ℚ)) / 2, ((cell.y0 : ℚ) + (cell.y1 : ℚ)) / 2)
    some { label := label,
           variant := variantOf cfg.label_pfx label,
           circuit := d.circuit,
           room := d.room,
           x := pyInt pq.1, y := pyInt pq.2,
           confidence := d.confidence.getD "MEDIUM",
           on_boundary := d.on_boundary.getD false,
           source_cell := some (cell.col, cell.row),
           source_phase := 2,
           notes := d.notes.getD "" }
  else none

/-- Phase 2 conversion of a whole response: the in-order conversion of the
accepted raw detections. -/
def inspect_cell_convert (cfg : PipelineConfig) (cell : CellInfo)
    (raws : List RawDetection) : List Detection :=
  raws.filterMap (convertCellRaw cfg cell)

/-- Conversion of one raw detection in agent.py `_tool_crop_and_inspect`:
same label filter; the coordinates are the crop center percentages scaled
to the coarse page size (`coarseW`, `coarseH`), and the detection is tagged
with phase 3. -/
def convertCropRaw (cfg : PipelineConfig) (x_pct y_pct : ℚ)
    (coarseW coarseH : Nat) (reason : String) (d : RawDetection) : Option Detection :=
  let label := normalizeLabel d.label
  if matchesLabelPattern label then
    some { label := label,
           variant := variantOf cfg.label_pfx label,
           circuit := d.circuit,
           room := d.room,
           x := pyInt (x_pct / 100 * (coarseW : ℚ)),
           y := pyInt (y_pct / 100 * (coarseH : ℚ)),
           confidence := d.confidence.getD "MEDIUM",
           on_boundary := false,
           source_cell := none,
           source_phase := 3,
           notes := "Refinement: " ++ reason }
  else none

/-- Phase 3 conversion of a whole crop inspection response. -/
def crop_and_inspect_convert (cfg : PipelineConfig) (x_pct y_pct : ℚ)
    (coarseW coarseH : Nat) (reason : String) (raws : List RawDetection) : List Detection :=
  raws.filterMap (convertCropRaw cfg x_pct y_pct coarseW coarseH reason)

/-! ## Crop geometry (agent.py `_tool_crop_and_inspect`, rasterize.py
`render_crop`) -/

/-- The tool input dict of `crop_and_inspect`: every entry may be absent
(Python `params.get` with defaults 50, 50, 25, 25). -/
structure CropParams where
  x_pct : Option ℚ := none
  y_pct : Option ℚ := none
  width_pct : Option ℚ := none
  height_pct : Option ℚ := none
deriving DecidableEq

/-- Effective center x: `params.get("x_pct", 50)`. -/
def effXPct (p : CropParams) : ℚ := p.x_pct.getD 50

/-- Effective center y: `params.get("y_pct", 50)`. -/
def effYPct (p : CropParams) : ℚ := p.y_pct.getD 50

/-- Effective width: `min(params.get("width_pct", 25), 50)`. -/
def effWPct (p : CropParams) : ℚ := min (p.width_pct.getD 25) 50

/-- Effective height: `min(params.get("height_pct", 25), 50)`. -/
def effHPct (p : CropParams) : ℚ := min (p.height_pct.getD 25) 50

/-- Pixel rectangle cropped by rasterize.py `render_crop`. -/
structure CropBox where
  x1 : Int
  y1 : Int
  x2 : Int
  y2 : Int
deriving DecidableEq

/-- rasterize.py `render_crop` box arithmetic on a `W`-by-`H` rendered
image: center-addressed percentages, truncated to `int` and clamped with
`max 0` on the low edges and `min W` / `min H` on the high edges. -/
def render_crop (W H : Nat) (x_pct y_pct w_pct h_pct : ℚ) : CropBox :=
  let cx := x_pct / 100 * (W : ℚ)
  let cy := y_pct / 100 * (H : ℚ)
  let cw := w_pct / 100 * (W : ℚ)
  let ch := h_pct / 100 * (H : ℚ)
  { x1 := max 0 (pyInt (cx - cw / 2)),
    y1 := max 0 (pyInt (cy - ch / 2)),
    x2 := min (W : Int) (pyInt (cx + cw / 2)),
    y2 := min (H : Int) (pyInt (cy + ch / 2)) }

/-! ## AgentOrchestrator loop (agent.py `AgentOrchestrator.run`)

The orchestrating model is an oracle: a run is determined by the sequence
of responses the model would return. Only the control flow that gates
`crop_and_inspect` executions (the `vlm_calls` counter) is modelled; the
detections a crop returns do not influence the loop control. -/

/-- One tool call requested in a model turn. -/
inductive AgentTool where
  | crop
  | validate
  | getState
  | fin
  | unknown
deriving DecidableEq

/-- One model response: a turn with tool calls, a tool-free response with
stop reason `end_turn` (break), a tool-free response with another stop
reason (continue), or a transport error from the API call (break). -/
inductive ModelTurn where
  | toolTurn (calls : List AgentTool)
  | endTurn
  | noToolsContinue
  | transportError
deriving DecidableEq

/-- Sequential execution of the tool calls of one turn: `finalize` returns
immediately, `crop_and_inspect` increments `vlm_calls` by one, the other
tools cost nothing. Returns the new counter and whether `finalize` fired.
No budget check happens between the calls of a turn. -/
def execTurn : List AgentTool → Nat → Nat × Bool
  | [], v => (v, false)
  | .fin :: _, v => (v, true)
  | .crop :: rest, v => execTurn rest (v + 1)
  | _ :: rest, v => execTurn rest v

/-- The turn loop of `AgentOrchestrator.run`: at the top of each iteration
`remaining = max_vlm_calls_phase3 - vlm_calls` is checked and the loop
breaks when it is not positive; otherwise the next model response is
consumed and its tool calls run sequentially. -/
def runAux (N : Nat) : List ModelTurn → Nat → Nat → Nat
  | _, 0, v => v
  | [], _, v => v
  | t :: rest, fuel + 1, v =>
    if N ≤ v then v
    else
      match t with
      | .endTurn => v
      | .transportError => v
      | .noToolsContinue => runAux N rest fuel v
      | .toolTurn calls =>
        let vf := execTurn calls v
        if vf.2 then vf.1 else runAux N rest fuel vf.1

/-- agent.py `AgentOrchestrator.run`, restricted to the `vlm_calls`
counter: the pre-loop guard returns at once when the budget is not
positive, then the loop runs for at most `max_agent_iterations` turns. -/
def agentRun (cfg : PipelineConfig) (turns : List ModelTurn) : Nat :=
  if cfg.max_vlm_calls_phase3 = 0 then 0
  else runAux cfg.max_vlm_calls_phase3 turns cfg.max_agent_iterations 0

/-- Number of `crop_and_inspect` calls packed into one model turn. -/
def cropsPerTurn : ModelTurn → Nat
  | .toolTurn calls => calls.count .crop
  | _ => 0

/-! ## ContextExtractor (context.py `extract_context`)

The two fallible external steps (rendering plus the single VLM call, and
the permissive JSON parse) are oracles: the transport outcome is an
`Except` carrying the exception text, and the parse outcome is the
`Option DrawingContext` produced by `_parse_json` followed by
`DrawingContext.from_dict` (with `None` and the empty dict both mapping to
`none`, as `if data:` treats them identically). -/

def extract_context (transport : Except String String)
    (parse : String → Option DrawingContext) : DrawingContext × PhaseResult :=
  match transport with
  | .error e => ({}, { phase := 1, vlm_calls := 0, error := some e })
  | .ok text =>
    match parse text with
    | some ctx => (ctx, { phase := 1, vlm_calls := 1, error := none })
    | none => ({}, { phase := 1, vlm_calls := 1, error := none })

/-! ## Helper lemmas -/

theorem sortStr_perm (l : List String) : (sortStr l).Perm l :=
  List.perm_insertionSort _ _

theorem sortStr_sorted (l : List String) : List.Pairwise (· ≤ ·) (sortStr l) :=
  List.sorted_insertionSort _ _

theorem finalCountsOf_map_fst (kept : List Detection) :
    (finalCountsOf kept).map Prod.fst = sortStr ((kept.map (fun d => d.label)).dedup) := by
  simp [finalCountsOf, List.map_map, Function.comp_def]

theorem finalCountsOf_sum (kept : List Detection) :
    ((finalCountsOf kept).map Prod.snd).sum = kept.length := by
  unfold finalCountsOf labelCount
  rw [List.map_map]
  have h1 : (Prod.snd ∘ fun lab =>
      (lab, List.count lab (kept.map (fun d => d.label))))
      = fun lab => List.count lab (kept.map (fun d => d.label)) := rfl
  rw [h1]
  have h2 := ((sortStr_perm ((kept.map (fun d => d.label)).dedup)).map
    (fun lab => List.count lab (kept.map (fun d => d.label)))).sum_eq
  rw [h2, List.sum_map_count_dedup_eq_length, List.length_map]

theorem finalCountsOf_sorted (kept : List Detection) :
    List.Pairwise (fun p q : String × Nat => p.1 ≤ q.1) (finalCountsOf kept) := by
  unfold finalCountsOf
  exact List.pairwise_map.mpr (sortStr_sorted _)

theorem finalCountsOf_keys_nodup (kept : List Detection) :
    ((finalCountsOf kept).map Prod.fst).Nodup := by
  rw [finalCountsOf_map_fst]
  exact ((sortStr_perm _).nodup_iff).mpr (List.nodup_dedup _)

theorem finalCountsOf_values (kept : List Detection) :
    (finalCountsOf kept).all
      (fun p => p.2 == labelCount (kept.map (fun d => d.label)) p.1) = true := by
  simp [finalCountsOf, List.all_eq_true]

theorem finalCountsOf_keys_iff (kept : List Detection) (lab : String) :
    (∃ n, (lab, n) ∈ finalCountsOf kept) ↔ lab ∈ kept.map (fun d => d.label) := by
  unfold finalCountsOf
  constructor
  · rintro ⟨n, hn⟩
    rw [List.mem_map] at hn
    obtain ⟨a, ha, hEq⟩ := hn
    have ha2 : a = lab := congrArg Prod.fst hEq
    subst ha2
    exact List.mem_dedup.mp ((sortStr_perm _).mem_iff.mp ha)
  · intro h
    exact ⟨labelCount (kept.map (fun d => d.label)) lab,
      List.mem_map.mpr ⟨lab, (sortStr_perm _).mem_iff.mpr (List.mem_dedup.mpr h), rfl⟩⟩

theorem dedupWalk_pairwise (radius : Int) (l : List Detection)
    (acc : List Detection × Nat)
    (hacc : List.Pairwise (fun a b : Detection =>
      ¬ (a.label = b.label ∧ |a.x - b.x| < radius ∧ |a.y - b.y| < radius)) acc.1) :
    List.Pairwise (fun a b : Detection =>
      ¬ (a.label = b.label ∧ |a.x - b.x| < radius ∧ |a.y - b.y| < radius))
      (l.foldl (dedupStep radius) acc).1 := by
  induction l generalizing acc with
  | nil => exact hacc
  | cons det l ih =>
    obtain ⟨kept, dups⟩ := acc
    rw [List.foldl_cons]
    by_cases h : kept.any (fun e => isDupOf radius det e) = true
    · have hstep : dedupStep radius (kept, dups) det = (kept, dups + 1) := by
        simp [dedupStep, h]
      rw [hstep]
      exact ih (kept, dups + 1) hacc
    · have hall : ∀ e ∈ kept,
          ¬ (e.label = det.label ∧ |e.x - det.x| < radius ∧ |e.y - det.y| < radius) := by
        intro e he
        have := fun hp => h (List.any_eq_true.mpr ⟨e, he, hp⟩)
        simpa [isDupOf] using this
      have hstep : dedupStep radius (kept, dups) det = (kept ++ [det], dups) := by
        simp [dedupStep, h]
      rw [hstep]
      refine ih (kept ++ [det], dups) ?_
      simp only []
      rw [List.pairwise_append]
      exact ⟨hacc, List.pairwise_singleton _ _, fun a ha b hb => by
        rw [List.mem_singleton] at hb
        subst hb
        exact hall a ha⟩

/-! ## Claim theorems -/

/-- C3: for every input detection list, configuration and context, the
report returned by `synthesize` satisfies `total = len(detections)`,
`total = sum(final_counts.values())`, the keys of `final_counts` are
lexically ordered and distinct, each entry of `final_counts` is the tally
of kept detections with that label, and a label has an entry exactly when
some kept detection carries it. -/
theorem C3_synthesis_invariants (dets : List Detection) (cfg : PipelineConfig)
    (ctx : Option DrawingContext) :
    (synthesize dets cfg ctx).total = (synthesize dets cfg ctx).detections.length
    ∧ ((synthesize dets cfg ctx).final_counts.map Prod.snd).sum
        = (synthesize dets cfg ctx).total
    ∧ List.Pairwise (fun p q : String × Nat => p.1 ≤ q.1)
        (synthesize dets cfg ctx).final_counts
    ∧ ((synthesize dets cfg ctx).final_counts.map Prod.fst).Nodup
    ∧ ((synthesize dets cfg ctx).final_counts.all
        (fun p => p.2 == labelCount
          ((synthesize dets cfg ctx).detections.map (fun d => d.label)) p.1)) = true
    ∧ ∀ lab : String,
        (∃ n, (lab, n) ∈ (synthesize dets cfg ctx).final_counts)
          ↔ lab ∈ (synthesize dets cfg ctx).detections.map (fun d => d.label) := by
  by_cases hd : dets.isEmpty
  · simp [synthesize, hd]
  · have h1 : (synthesize dets cfg ctx).total
        = (dedupWalk cfg.dedup_radius_px (sortedDets dets)).1.length := by
      simp [synthesize, hd]
    have h2 : (synthesize dets cfg ctx).detections
        = (dedupWalk cfg.dedup_radius_px (sortedDets dets)).1 := by
      simp [synthesize, hd]
    have h3 : (synthesize dets cfg ctx).final_counts
        = finalCountsOf (dedupWalk cfg.dedup_radius_px (sortedDets dets)).1 := by
      simp [synthesize, hd]
    refine ⟨by rw [h1, h2], by rw [h3, h1]; exact finalCountsOf_sum _,
      by rw [h3]; exact finalCountsOf_sorted _,
      by rw [h3]; exact finalCountsOf_keys_nodup _,
      by rw [h3, h2]; exact finalCountsOf_values _,
      fun lab => by rw [h3, h2]; exact finalCountsOf_keys_iff _ lab⟩

/-- C5: `synthesize` is a pure, deterministic function of its three inputs;
runs on equal inputs return reports that are equal, in particular equal in
detection order, final counts, total, duplicate count and warnings. There
is no dependence on randomness or time: no such source appears in the
embedding. -/
theorem C5_synthesize_deterministic (d1 d2 : List Detection)
    (c1 c2 : PipelineConfig) (x1 x2 : Option DrawingContext)
    (hd : d1 = d2) (hc : c1 = c2) (hx : x1 = x2) :
    synthesize d1 c1 x1 = synthesize d2 c2 x2
    ∧ (synthesize d1 c1 x1).detections = (synthesize d2 c2 x2).detections
    ∧ (synthesize d1 c1 x1).final_counts = (synthesize d2 c2 x2).final_counts
    ∧ (synthesize d1 c1 x1).total = (synthesize d2 c2 x2).total
    ∧ (synthesize d1 c1 x1).duplicates_removed = (synthesize d2 c2 x2).duplicates_removed
    ∧ (synthesize d1 c1 x1).pattern_warnings = (synthesize d2 c2 x2).pattern_warnings := by
  subst hd; subst hc; subst hx
  exact ⟨rfl, rfl, rfl, rfl, rfl, rfl⟩

/-- C5 witness: the determinism theorem applied at a concrete input. -/
theorem C5_witness :
    ([{ label := "LT01" }] : List Detection) = [{ label := "LT01" }]
    ∧ synthesize [{ label := "LT01" }] {} none = synthesize [{ label := "LT01" }] {} none :=
  ⟨rfl, (C5_synthesize_deterministic [{ label := "LT01" }] [{ label := "LT01" }]
    {} {} none none rfl rfl rfl).1⟩

/-- C9: in the deduplicated list returned by `synthesize`, no two
detections share a label while both coordinate offsets are strictly below
the dedup radius. -/
theorem C9_no_close_pairs (dets : List Detection) (cfg : PipelineConfig)
    (ctx : Option DrawingContext) :
    List.Pairwise (fun a b : Detection =>
      ¬ (a.label = b.label ∧ |a.x - b.x| < cfg.dedup_radius_px
          ∧ |a.y - b.y| < cfg.dedup_radius_px))
      (synthesize dets cfg ctx).detections := by
  by_cases hd : dets.isEmpty
  · simp [synthesize, hd]
  · simp only [synthesize, hd, Bool.false_eq_true, if_false]
    exact dedupWalk_pairwise cfg.dedup_radius_px (sortedDets dets) ([], 0)
      (List.Pairwise.nil)

/-- C4: the dedup drop test holds exactly when an already-kept detection
has an identical label and both per-axis offsets strictly below the
radius; detections are processed in descending `(confidence rank,
source phase)` order with HIGH mapping to 3, MEDIUM to 2, LOW to 1 and
anything else to 0; concretely, at radius 50 two same-label detections
offset by exactly 50 on one axis are both kept, while offsets of 49 on
both axes merge them and the kept one is the higher-confidence one. -/
theorem C4_dedup_radius_boundary :
    (∀ (radius : Int) (kept : List Detection) (det : Detection),
      kept.any (fun e => isDupOf radius det e) = true
        ↔ ∃ e ∈ kept, e.label = det.label
            ∧ |e.x - det.x| < radius ∧ |e.y - det.y| < radius)
    ∧ (∀ dets : List Detection, List.Sorted detGe (sortedDets dets))
    ∧ confRank "HIGH" = 3 ∧ confRank "MEDIUM" = 2 ∧ confRank "LOW" = 1
    ∧ confRank "UNKNOWN" = 0 ∧ confRank "" = 0
    ∧ (synthesize [{ label := "LT01", x := 0, y := 0, confidence := "HIGH" },
                   { label := "LT01", x := 50, y := 0, confidence := "LOW" }] {} none).total = 2
    ∧ (synthesize [{ label := "LT01", x := 0, y := 0, confidence := "HIGH" },
                   { label := "LT01", x := 50, y := 0, confidence := "LOW" }]
          {} none).duplicates_removed = 0
    ∧ (synthesize [{ label := "LT01", x := 0, y := 0, confidence := "LOW" },
                   { label := "LT01", x := 49, y := 49, confidence := "HIGH",
                     source_phase := 3 }] {} none).total = 1
    ∧ (synthesize [{ label := "LT01", x := 0, y := 0, confidence := "LOW" },
                   { label := "LT01", x := 49, y := 49, confidence := "HIGH",
                     source_phase := 3 }] {} none).duplicates_removed = 1
    ∧ (synthesize [{ label := "LT01", x := 0, y := 0, confidence := "LOW" },
                   { label := "LT01", x := 49, y := 49, confidence := "HIGH",
                     source_phase := 3 }] {} none).detections
        = [{ label := "LT01", x := 49, y := 49, confidence := "HIGH", source_phase := 3 }] := by
  refine ⟨?_, ?_, rfl, rfl, rfl, rfl, rfl, by decide, by decide, by decide, by decide, by decide⟩
  · intro radius kept det
    rw [List.any_eq_true]
    simp [isDupOf, and_assoc]
  · intro dets
    exact List.sorted_insertionSort _ _

/-- C6 counterexample: with two suites (101 and 202) and a single kept
detection whose room matches neither, the claim demands one warning per
uncovered suite (two warnings), but `synthesize` emits a single combined
warning. -/
theorem C6_counterexample :
    missingSuites (synthesize [{ label := "LT01" }] {}
        (some { suites := [{ number := some "101" }, { number := some "202" }] })).detections
        { suites := [{ number := some "101" }, { number := some "202" }] }
      = ["101", "202"]
    ∧ (synthesize [{ label := "LT01" }] {}
        (some { suites := [{ number := some "101" }, { number := some "202" }] })).pattern_warnings.length = 1
    ∧ (1 : Nat) ≠ 2 := by
  refine ⟨by decide, by decide, by decide⟩

/-- C6 amended: when the input list is non-empty and at least one suite
number has no kept detection whose room text contains it (lowercased,
any label), `synthesize` emits exactly one combined warning naming all
such suites; otherwise it emits none, so the warning list never has more
than one element. -/
theorem C6_suite_coverage_warning (dets : List Detection) (cfg : PipelineConfig)
    (c : DrawingContext) :
    (synthesize dets cfg (some c)).pattern_warnings
      = (if dets.isEmpty then []
         else if (missingSuites (synthesize dets cfg (some c)).detections c).isEmpty then []
         else [suiteWarning cfg.label_pfx
                (missingSuites (synthesize dets cfg (some c)).detections c)])
    ∧ (synthesize dets cfg (some c)).pattern_warnings.length ≤ 1 := by
  by_cases hd : dets.isEmpty
  · constructor
    · simp [synthesize, hd]
    · simp [synthesize, hd]
  · have h2 : (synthesize dets cfg (some c)).detections
        = (dedupWalk cfg.dedup_radius_px (sortedDets dets)).1 := by
      simp [synthesize, hd]
    have hw : (synthesize dets cfg (some c)).pattern_warnings
        = (if c.suites.isEmpty then []
           else checkSuiteCoverage (dedupWalk cfg.dedup_radius_px (sortedDets dets)).1 c cfg) := by
      simp [synthesize, hd]
    by_cases hs : c.suites.isEmpty
    · have hmiss : missingSuites (dedupWalk cfg.dedup_radius_px (sortedDets dets)).1 c = [] := by
        have : c.suites = [] := List.isEmpty_iff.mp hs
        simp [missingSuites, suiteNumbers, this]
      rw [hw, h2]
      simp [hs, hd, hmiss]
    · rw [hw, h2]
      simp only [hs, Bool.false_eq_true, if_false, checkSuiteCoverage, hd]
      by_cases hm : (missingSuites (dedupWalk cfg.dedup_radius_px (sortedDets dets)).1 c).isEmpty
      · simp [hm]
      · simp [hm]

theorem filterMap_eq_filterMap_filter {α β : Type} (f : α → Option β) (p : α → Bool)
    (hf : ∀ a, p a = false → f a = none) :
    ∀ l : List α, l.filterMap f = (l.filter p).filterMap f := by
  intro l
  induction l with
  | nil => rfl
  | cons a l ih =>
    cases hpa : p a
    · simp [List.filter_cons, hpa, List.filterMap_cons, hf a hpa, ih]
    · simp [List.filter_cons, hpa, List.filterMap_cons, ih]

theorem convertCellRaw_label {cfg : PipelineConfig} {cell : CellInfo}
    {rd : RawDetection} {d : Detection} (h : convertCellRaw cfg cell rd = some d) :
    matchesLabelPattern d.label = true := by
  unfold convertCellRaw at h
  cases hm : matchesLabelPattern (normalizeLabel rd.label)
  · exfalso
    simp [hm] at h
  · simp only [hm, if_true] at h
    injection h with h2
    rw [← h2]
    exact hm

theorem convertCellRaw_none {cfg : PipelineConfig} {cell : CellInfo}
    {rd : RawDetection} (h : matchesLabelPattern (normalizeLabel rd.label) = false) :
    convertCellRaw cfg cell rd = none := by
  unfold convertCellRaw
  simp [h]

theorem convertCropRaw_label {cfg : PipelineConfig} {x_pct y_pct : ℚ}
    {cW cH : Nat} {reason : String} {rd : RawDetection} {d : Detection}
    (h : convertCropRaw cfg x_pct y_pct cW cH reason rd = some d) :
    matchesLabelPattern d.label = true := by
  unfold convertCropRaw at h
  cases hm : matchesLabelPattern (normalizeLabel rd.label)
  · exfalso
    simp [hm] at h
  · simp only [hm, if_true] at h
    injection h with h2
    rw [← h2]
    exact hm

theorem convertCropRaw_none {cfg : PipelineConfig} {x_pct y_pct : ℚ}
    {cW cH : Nat} {reason : String} {rd : RawDetection}
    (h : matchesLabelPattern (normalizeLabel rd.label) = false) :
    convertCropRaw cfg x_pct y_pct cW cH reason rd = none := by
  unfold convertCropRaw
  simp [h]

/-- C7: in both the Phase 2 cell conversion and the Phase 3 crop
conversion, every produced detection carries a label matching the pattern;
raw detections whose normalized (uppercased, stripped) label fails the
pattern contribute nothing, so the conversion factors through that filter;
concretely the raw label FS22 is dropped and the raw label lt04a is
accepted as LT04A in both conversions. -/
theorem C7_label_filtering :
    (∀ (cfg : PipelineConfig) (cell : CellInfo) (raws : List RawDetection),
      (inspect_cell_convert cfg cell raws).all
        (fun d => matchesLabelPattern d.label) = true)
    ∧ (∀ (cfg : PipelineConfig) (x y : ℚ) (cW cH : Nat) (reason : String)
        (raws : List RawDetection),
      (crop_and_inspect_convert cfg x y cW cH reason raws).all
        (fun d => matchesLabelPattern d.label) = true)
    ∧ (∀ (cfg : PipelineConfig) (cell : CellInfo) (raws : List RawDetection),
      inspect_cell_convert cfg cell raws
        = inspect_cell_convert cfg cell
            (raws.filter (fun rd => matchesLabelPattern (normalizeLabel rd.label))))
    ∧ (∀ (cfg : PipelineConfig) (x y : ℚ) (cW cH : Nat) (reason : String)
        (raws : List RawDetection),
      crop_and_inspect_convert cfg x y cW cH reason raws
        = crop_and_inspect_convert cfg x y cW cH reason
            (raws.filter (fun rd => matchesLabelPattern (normalizeLabel rd.label))))
    ∧ inspect_cell_convert {} { row := 0, col := 0, x0 := 0, y0 := 0, x1 := 100, y1 := 100 }
        [{ label := "FS22" }] = []
    ∧ (inspect_cell_convert {} { row := 0, col := 0, x0 := 0, y0 := 0, x1 := 100, y1 := 100 }
        [{ label := "lt04a" }]).map (fun d => d.label) = ["LT04A"]
    ∧ crop_and_inspect_convert {} 50 50 1000 800 "check" [{ label := "FS22" }] = []
    ∧ (crop_and_inspect_convert {} 50 50 1000 800 "check"
        [{ label := "lt04a" }]).map (fun d => d.label) = ["LT04A"] := by
  refine ⟨?_, ?_, ?_, ?_, by decide, by decide, by decide, by decide⟩
  · intro cfg cell raws
    rw [List.all_eq_true]
    intro d hd
    unfold inspect_cell_convert at hd
    rw [List.mem_filterMap] at hd
    obtain ⟨rd, -, hrd⟩ := hd
    exact convertCellRaw_label hrd
  · intro cfg x y cW cH reason raws
    rw [List.all_eq_true]
    intro d hd
    unfold crop_and_inspect_convert at hd
    rw [List.mem_filterMap] at hd
    obtain ⟨rd, -, hrd⟩ := hd
    exact convertCropRaw_label hrd
  · intro cfg cell raws
    exact filterMap_eq_filterMap_filter _ _
      (fun rd h => convertCellRaw_none h) raws
  · intro cfg x y cW cH reason raws
    exact filterMap_eq_filterMap_filter _ _
      (fun rd h => convertCropRaw_none h) raws

/-- C8: the Phase 1 extraction is total over every transport outcome and
every parse outcome; a transport or API error leaves `vlm_calls` at 0,
records the error text in the phase result, and still returns the default
empty context; a successful call records no error, counts one VLM call,
and falls back to the default context when the permissive parse fails. -/
theorem C8_extract_context_safe (t : Except String String)
    (parse : String → Option DrawingContext) :
    (∀ e, t = .error e →
      extract_context t parse
        = ({}, { phase := 1, vlm_calls := 0, error := some e }))
    ∧ (∀ text, t = .ok text →
      (extract_context t parse).2.error = none
      ∧ (extract_context t parse).2.vlm_calls = 1
      ∧ (extract_context t parse).1 = (parse text).getD {}) := by
  constructor
  · rintro e rfl
    rfl
  · rintro text rfl
    cases hp : parse text <;> simp [extract_context, hp]

/-- C8 witness: the safety theorem applied to a failing transport and to a
successful call whose response does not parse. -/
theorem C8_witness :
    extract_context (.error "rate limited") (fun _ => none)
      = ({}, { phase := 1, vlm_calls := 0, error := some "rate limited" })
    ∧ (extract_context (.ok "not json") (fun _ => none)).1 = (none : Option DrawingContext).getD {} :=
  ⟨(C8_extract_context_safe (.error "rate limited") (fun _ => none)).1 "rate limited" rfl,
   ((C8_extract_context_safe (.ok "not json") (fun _ => none)).2 "not json" rfl).2.2⟩

/-- C10: the tool input clamp keeps the effective crop width and height
percentages at or below 50 (requests above 50 are reduced to exactly 50),
and the rectangle computed by the renderer lies within the page bounds. -/
theorem C10_crop_clamping (p : CropParams) (W H : Nat) :
    effWPct p ≤ 50 ∧ effHPct p ≤ 50
    ∧ (∀ w : ℚ, p.width_pct = some w → 50 ≤ w → effWPct p = 50)
    ∧ (∀ h : ℚ, p.height_pct = some h → 50 ≤ h → effHPct p = 50)
    ∧ 0 ≤ (render_crop W H (effXPct p) (effYPct p) (effWPct p) (effHPct p)).x1
    ∧ (render_crop W H (effXPct p) (effYPct p) (effWPct p) (effHPct p)).x2 ≤ (W : Int)
    ∧ 0 ≤ (render_crop W H (effXPct p) (effYPct p) (effWPct p) (effHPct p)).y1
    ∧ (render_crop W H (effXPct p) (effYPct p) (effWPct p) (effHPct p)).y2 ≤ (H : Int) := by
  refine ⟨min_le_right _ _, min_le_right _ _, ?_, ?_, le_max_left _ _, min_le_left _ _,
    le_max_left _ _, min_le_left _ _⟩
  · intro w hw h50
    rw [effWPct, hw, Option.getD_some]
    exact min_eq_right h50
  · intro h hh h50
    rw [effHPct, hh, Option.getD_some]
    exact min_eq_right h50

/-- C10 witness: the clamp theorem applied to a request of 80 by 60
percent on a 1000 by 800 page. -/
theorem C10_witness :
    effWPct { width_pct := some 80, height_pct := some 60 } = 50
    ∧ effHPct { width_pct := some 80, height_pct := some 60 } = 50
    ∧ 0 ≤ (render_crop 1000 800
        (effXPct { width_pct := some 80, height_pct := some 60 })
        (effYPct { width_pct := some 80, height_pct := some 60 })
        (effWPct { width_pct := some 80, height_pct := some 60 })
        (effHPct { width_pct := some 80, height_pct := some 60 })).x1 :=
  ⟨(C10_crop_clamping { width_pct := some 80, height_pct := some 60 } 1000 800).2.2.1 80 rfl
      (by norm_num),
   (C10_crop_clamping { width_pct := some 80, height_pct := some 60 } 1000 800).2.2.2.1 60 rfl
      (by norm_num),
   (C10_crop_clamping { width_pct := some 80, height_pct := some 60 } 1000 800).2.2.2.2.1⟩

theorem execTurn_fst_le (calls : List AgentTool) (v : Nat) :
    (execTurn calls v).1 ≤ v + calls.count .crop := by
  induction calls generalizing v with
  | nil => simp [execTurn]
  | cons head rest ih =>
    cases head
    case crop =>
      have h := ih (v + 1)
      simp [execTurn, List.count_cons]
      omega
    case fin =>
      simp [execTurn, List.count_cons]
    case validate =>
      have h := ih v
      simp [execTurn, List.count_cons]
      omega
    case getState =>
      have h := ih v
      simp [execTurn, List.count_cons]
      omega
    case unknown =>
      have h := ih v
      simp [execTurn, List.count_cons]
      omega

theorem runAux_le (N : Nat) (turns : List ModelTurn) :
    ∀ (fuel v : Nat), (∀ t ∈ turns, cropsPerTurn t ≤ 1) → v ≤ N →
      runAux N turns fuel v ≤ N := by
  induction turns with
  | nil =>
    intro fuel v _ hv
    cases fuel <;> exact hv
  | cons t rest ih =>
    intro fuel v hcrops hv
    cases fuel with
    | zero => exact hv
    | succ fuel =>
      by_cases hb : N ≤ v
      · simp only [runAux, if_pos hb]
        exact hv
      · simp only [runAux, if_neg hb]
        cases t with
        | endTurn => exact hv
        | transportError => exact hv
        | noToolsContinue =>
          exact ih fuel v (fun u hu => hcrops u (List.mem_cons_of_mem _ hu)) hv
        | toolTurn calls =>
          have hcount : calls.count .crop ≤ 1 := by
            have := hcrops (.toolTurn calls) (List.mem_cons_self _ _)
            simpa [cropsPerTurn] using this
          have hle : (execTurn calls v).1 ≤ N := by
            have := execTurn_fst_le calls v
            omega
          by_cases hfin : (execTurn calls v).2
          · simp only [hfin, if_true]
            exact hle
          · simp only [hfin, Bool.false_eq_true, if_false]
            exact ih fuel (execTurn calls v).1
              (fun u hu => hcrops u (List.mem_cons_of_mem _ hu)) hle

/-- C1 counterexample: with a budget of one, a single turn that packs two
`crop_and_inspect` calls executes both of them (the budget is only checked
between turns), so the loop performs two executions where the claim allows
at most one. -/
theorem C1_counterexample :
    agentRun { max_vlm_calls_phase3 := 1 } [.toolTurn [.crop, .crop]] = 2
    ∧ ¬ (agentRun { max_vlm_calls_phase3 := 1 } [.toolTurn [.crop, .crop]]
          ≤ ({ max_vlm_calls_phase3 := 1 } : PipelineConfig).max_vlm_calls_phase3) := by
  refine ⟨by decide, by decide⟩

/-- C1 amended: the loop starts a turn only while `vlm_calls` is below the
budget `N` and runs every tool call of that turn without further checks;
hence when every model turn packs at most one `crop_and_inspect` call, the
total number of executions (each incrementing `vlm_calls` by one) is at
most `N`. -/
theorem C1_budget_bound (cfg : PipelineConfig) (turns : List ModelTurn)
    (h : ∀ t ∈ turns, cropsPerTurn t ≤ 1) :
    agentRun cfg turns ≤ cfg.max_vlm_calls_phase3 := by
  unfold agentRun
  by_cases h0 : cfg.max_vlm_calls_phase3 = 0
  · simp [h0]
  · simp only [h0, if_false]
    exact runAux_le _ _ _ 0 h (Nat.zero_le _)

/-- C1 witness: the budget bound applied to a run of three one-crop turns
under the default configuration. -/
theorem C1_witness :
    (∀ t ∈ [ModelTurn.toolTurn [AgentTool.crop], ModelTurn.toolTurn [AgentTool.crop],
        ModelTurn.toolTurn [AgentTool.validate, AgentTool.crop]], cropsPerTurn t ≤ 1)
    ∧ agentRun {} [ModelTurn.toolTurn [AgentTool.crop], ModelTurn.toolTurn [AgentTool.crop],
        ModelTurn.toolTurn [AgentTool.validate, AgentTool.crop]]
        ≤ ({} : PipelineConfig).max_vlm_calls_phase3 :=
  ⟨by decide, C1_budget_bound {} _ (by decide)⟩

theorem mem_decompose {W H : Nat} {cfg : PipelineConfig} {cell : CellInfo} :
    cell ∈ (decompose W H cfg).cells ↔
      ∃ r, r < cfg.coarse_grid_rows ∧ ∃ c, c < cfg.coarse_grid_cols ∧
        cell = mkCell W H (W / cfg.coarse_grid_cols) (H / cfg.coarse_grid_rows) r c := by
  unfold decompose
  simp only [List.mem_flatMap, List.mem_map, List.mem_range]
  constructor
  · rintro ⟨r, hr, c, hc, hEq⟩
    exact ⟨r, hr, c, hc, hEq.symm⟩
  · rintro ⟨r, hr, c, hc, hEq⟩
    exact ⟨r, hr, c, hc, hEq.symm⟩

theorem span_le (W cols c : Nat) (hc : c < cols) :
    c * (W / cols) + (W / cols) ≤ W := by
  have h1 : (c + 1) * (W / cols) ≤ cols * (W / cols) := Nat.mul_le_mul_right _ hc
  have h2 : cols * (W / cols) ≤ W := by
    rw [Nat.mul_comm]
    exact Nat.div_mul_le_self W cols
  calc c * (W / cols) + (W / cols) = (c + 1) * (W / cols) := by ring
    _ ≤ cols * (W / cols) := h1
    _ ≤ W := h2

theorem length_flatMap_const {α β : Type} (l : List α) (f : α → List β) (k : Nat)
    (hf : ∀ a, (f a).length = k) : (l.flatMap f).length = l.length * k := by
  induction l with
  | nil => simp
  | cons a l ih =>
    simp only [List.flatMap_cons, List.length_append, List.length_cons, hf, ih]
    ring

theorem decompose_length (W H : Nat) (cfg : PipelineConfig) :
    (decompose W H cfg).cells.length
      = cfg.coarse_grid_cols * cfg.coarse_grid_rows := by
  unfold decompose
  rw [length_flatMap_const _ _ cfg.coarse_grid_cols
    (fun r => by simp), List.length_range, Nat.mul_comm]

theorem decompose_disjoint (W H : Nat) (cfg : PipelineConfig) :
    ∀ a ∈ (decompose W H cfg).cells, ∀ b ∈ (decompose W H cfg).cells,
      a ≠ b → ∀ px py, ¬ (cellContains a px py ∧ cellContains b px py) := by
  intro a ha b hb hne px py hcc
  obtain ⟨hca, hcb⟩ := hcc
  rw [mem_decompose] at ha hb
  obtain ⟨r, hr, c, hc, rfl⟩ := ha
  obtain ⟨r2, hr2, c2, hc2, rfl⟩ := hb
  simp only [cellContains, mkCell] at hca hcb
  obtain ⟨hax0, hax1, hay0, hay1⟩ := hca
  obtain ⟨hbx0, hbx1, hby0, hby1⟩ := hcb
  have hax1b := lt_of_lt_of_le hax1 (min_le_left _ _)
  have hay1b := lt_of_lt_of_le hay1 (min_le_left _ _)
  have hbx1b := lt_of_lt_of_le hbx1 (min_le_left _ _)
  have hby1b := lt_of_lt_of_le hby1 (min_le_left _ _)
  have hne2 : r ≠ r2 ∨ c ≠ c2 := by
    by_contra hcon
    push_neg at hcon
    exact hne (by rw [hcon.1, hcon.2])
  set cw := W / cfg.coarse_grid_cols with hcw
  set ch := H / cfg.coarse_grid_rows with hch
  rcases hne2 with hrr | hcc2
  · rcases lt_or_gt_of_ne hrr with hlt | hlt
    · have h1 : (r + 1) * ch ≤ r2 * ch := Nat.mul_le_mul_right _ hlt
      have h2 : py < (r + 1) * ch := by
        calc py < r * ch + ch := hay1b
          _ = (r + 1) * ch := by ring
      exact absurd hby0 (by omega)
    · have h1 : (r2 + 1) * ch ≤ r * ch := Nat.mul_le_mul_right _ hlt
      have h2 : py < (r2 + 1) * ch := by
        calc py < r2 * ch + ch := hby1b
          _ = (r2 + 1) * ch := by ring
      exact absurd hay0 (by omega)
  · rcases lt_or_gt_of_ne hcc2 with hlt | hlt
    · have h1 : (c + 1) * cw ≤ c2 * cw := Nat.mul_le_mul_right _ hlt
      have h2 : px < (c + 1) * cw := by
        calc px < c * cw + cw := hax1b
          _ = (c + 1) * cw := by ring
      exact absurd hbx0 (by omega)
    · have h1 : (c2 + 1) * cw ≤ c * cw := Nat.mul_le_mul_right _ hlt
      have h2 : px < (c2 + 1) * cw := by
        calc px < c2 * cw + cw := hbx1b
          _ = (c2 + 1) * cw := by ring
      exact absurd hax0 (by omega)

theorem decompose_cover_iff (W H : Nat) (cfg : PipelineConfig) (px py : Nat) :
    (∃ cell ∈ (decompose W H cfg).cells, cellContains cell px py)
      ↔ px < cfg.coarse_grid_cols * (W / cfg.coarse_grid_cols)
        ∧ py < cfg.coarse_grid_rows * (H / cfg.coarse_grid_rows) := by
  set cols := cfg.coarse_grid_cols with hcols
  set rows := cfg.coarse_grid_rows with hrows
  set cw := W / cols with hcw
  set ch := H / rows with hch
  constructor
  · rintro ⟨cell, hcell, hcont⟩
    rw [mem_decompose] at hcell
    obtain ⟨r, hr, c, hc, rfl⟩ := hcell
    simp only [cellContains, mkCell] at hcont
    obtain ⟨hx0, hx1, hy0, hy1⟩ := hcont
    constructor
    · have h2 : px < c * cw + cw := lt_of_lt_of_le hx1 (min_le_left _ _)
      have h3 : (c + 1) * cw ≤ cols * cw := Nat.mul_le_mul_right _ hc
      calc px < c * cw + cw := h2
        _ = (c + 1) * cw := by ring
        _ ≤ cols * cw := h3
    · have h2 : py < r * ch + ch := lt_of_lt_of_le hy1 (min_le_left _ _)
      have h3 : (r + 1) * ch ≤ rows * ch := Nat.mul_le_mul_right _ hr
      calc py < r * ch + ch := h2
        _ = (r + 1) * ch := by ring
        _ ≤ rows * ch := h3
  · rintro ⟨hx, hy⟩
    have hcwpos : 0 < cw := by
      rcases Nat.eq_zero_or_pos cw with h0 | h0
      · rw [h0, Nat.mul_zero] at hx
        exact absurd hx (Nat.not_lt_zero px)
      · exact h0
    have hchpos : 0 < ch := by
      rcases Nat.eq_zero_or_pos ch with h0 | h0
      · rw [h0, Nat.mul_zero] at hy
        exact absurd hy (Nat.not_lt_zero py)
      · exact h0
    have hclt : px / cw < cols := (Nat.div_lt_iff_lt_mul hcwpos).mpr hx
    have hrlt : py / ch < rows := (Nat.div_lt_iff_lt_mul hchpos).mpr hy
    refine ⟨mkCell W H cw ch (py / ch) (px / cw), ?_, ?_⟩
    · rw [mem_decompose]
      exact ⟨py / ch, hrlt, px / cw, hclt, rfl⟩
    · have hWle : cols * cw ≤ W := by
        rw [hcw, Nat.mul_comm]
        exact Nat.div_mul_le_self W cols
      have hHle : rows * ch ≤ H := by
        rw [hch, Nat.mul_comm]
        exact Nat.div_mul_le_self H rows
      have hdmx := Nat.div_add_mod px cw
      have hmodx := Nat.mod_lt px hcwpos
      rw [Nat.mul_comm] at hdmx
      have hdmy := Nat.div_add_mod py ch
      have hmody := Nat.mod_lt py hchpos
      rw [Nat.mul_comm] at hdmy
      refine ⟨Nat.div_mul_le_self px cw, lt_min (by omega) (by omega), Nat.div_mul_le_self py ch, lt_min (by omega) (by omega)⟩

/-- C2 counterexample: for a 3 by 1 image with a 2 by 1 grid, the cell
width is `3 // 2 = 1` and `min (x0+cw) W` never extends the last column,
so the pixel column at x = 2 lies in `[0,3)` but in no cell: the union of
the cells does not cover the image. -/
theorem C2_counterexample :
    (2 < 3 ∧ 0 < 1)
    ∧ ((decompose 3 1 { coarse_grid_cols := 2, coarse_grid_rows := 1 }).cells.all
        (fun cell => ! decide (cellContains cell 2 0))) = true := by
  refine ⟨by decide, by decide⟩

/-- C2 amended: `decompose` produces exactly `cols*rows` cells with
pairwise disjoint rectangles, but their union is
`[0, cols*(W//cols)) x [0, rows*(H//rows))`: the far-edge remainder strips
are left uncovered, and the union covers `[0,W) x [0,H)` exactly when
`cols` divides `W` and `rows` divides `H`. -/
theorem C2_grid_partition (W H : Nat) (cfg : PipelineConfig)
    (hc : 1 ≤ cfg.coarse_grid_cols) (hr : 1 ≤ cfg.coarse_grid_rows) :
    (decompose W H cfg).cells.length = cfg.coarse_grid_cols * cfg.coarse_grid_rows
    ∧ (∀ a ∈ (decompose W H cfg).cells, ∀ b ∈ (decompose W H cfg).cells,
        a ≠ b → ∀ px py, ¬ (cellContains a px py ∧ cellContains b px py))
    ∧ (∀ px py, (∃ cell ∈ (decompose W H cfg).cells, cellContains cell px py)
        ↔ px < cfg.coarse_grid_cols * (W / cfg.coarse_grid_cols)
          ∧ py < cfg.coarse_grid_rows * (H / cfg.coarse_grid_rows))
    ∧ (1 ≤ W → 1 ≤ H →
        ((∀ px, px < W → ∀ py, py < H →
            ∃ cell ∈ (decompose W H cfg).cells, cellContains cell px py)
          ↔ (cfg.coarse_grid_cols ∣ W ∧ cfg.coarse_grid_rows ∣ H))) := by
  refine ⟨decompose_length W H cfg, decompose_disjoint W H cfg,
    fun px py => decompose_cover_iff W H cfg px py, ?_⟩
  intro hW hH
  constructor
  · intro hcov
    constructor
    · rcases Nat.lt_or_ge (cfg.coarse_grid_cols * (W / cfg.coarse_grid_cols)) W with hlt | hge
      · exfalso
        have h := hcov _ hlt 0 hH
        rw [decompose_cover_iff] at h
        exact absurd h.1 (lt_irrefl _)
      · have hle : cfg.coarse_grid_cols * (W / cfg.coarse_grid_cols) ≤ W := by
          rw [Nat.mul_comm]
          exact Nat.div_mul_le_self W _
        exact ⟨W / cfg.coarse_grid_cols, (Nat.le_antisymm hle hge).symm⟩
    · rcases Nat.lt_or_ge (cfg.coarse_grid_rows * (H / cfg.coarse_grid_rows)) H with hlt | hge
      · exfalso
        have h := hcov 0 hW _ hlt
        rw [decompose_cover_iff] at h
        exact absurd h.2 (lt_irrefl _)
      · have hle : cfg.coarse_grid_rows * (H / cfg.coarse_grid_rows) ≤ H := by
          rw [Nat.mul_comm]
          exact Nat.div_mul_le_self H _
        exact ⟨H / cfg.coarse_grid_rows, (Nat.le_antisymm hle hge).symm⟩
  · rintro ⟨hdW, hdH⟩ px hpx py hpy
    rw [decompose_cover_iff]
    rw [Nat.mul_div_cancel' hdW, Nat.mul_div_cancel' hdH]
    exact ⟨hpx, hpy⟩

/-- C2 witness: the partition theorem applied to a 10 by 9 image with the
default 4 by 3 grid. -/
theorem C2_witness :
    (decompose 10 9 {}).cells.length = 4 * 3 :=
  (C2_grid_partition 10 9 {} (by decide) (by decide)).1
